import Mathlib

/-!
# Verification of the angelsuite-installer core

Shallow embedding of the resolution / extraction / orchestration engine of
the `lilopkins/angelsuite-installer` repository:

* `src/src-tauri/src/manifest.rs` — manifest data model, `Product::latest_version`
  and `Product::latest_version_data`;
* `src/src-tauri/src/install.rs` — persisted install state and `Install::save`;
* `src/src-tauri/src/gzip.rs` — the two-pass tar.gz extractor with
  wrapper-directory stripping;
* `src/src-tauri/src/lib.rs` — the `install_app` / `remove_app` orchestrator
  commands.

Pure functions are translated directly; the stateful commands are translated
as functions from an explicit environment (running platform, filesystem
facts, outcomes of the fallible external steps) and the shared state
(cached manifest, install store) to a result, the new shared state, and the
ordered list of filesystem effects the command performs.
-/

namespace AngelSuite

open Batteries

/-! ## Semantic versions

The source uses the `semver` crate: `Version { major, minor, patch, pre, build }`
with the standard semver precedence order.  A pre-release is a dot-separated
list of identifiers, each either numeric or alphanumeric; numeric identifiers
sort below alphanumeric ones, numeric ones compare as numbers, alphanumeric
ones compare in ASCII order, and a list that is a strict prefix of another
sorts first.  A version with an empty pre-release sorts above the same
major.minor.patch with any non-empty pre-release.  Build metadata is omitted
from the model: the spec's §4.1 edge-case policy forbids fixtures that differ
only in build metadata, and no claim mentions it. -/

/-- One pre-release identifier: numeric, or alphanumeric (ASCII string). -/
inductive PreId where
  | num (n : Nat)
  | str (s : String)
deriving DecidableEq

/-- A semantic version (build metadata omitted, see the section comment). -/
structure Version where
  major : Nat
  minor : Nat
  patch : Nat
  pre : List PreId
deriving DecidableEq

/-- Precedence of single pre-release identifiers per semver §11.4:
numeric below alphanumeric, numeric by value, alphanumeric in ASCII order. -/
def comparePreId : PreId → PreId → Ordering
  | .num a, .num b => compare a b
  | .num _, .str _ => .lt
  | .str _, .num _ => .gt
  | .str a, .str b => compare a b

/-- Lexicographic comparison of lists by a comparator on the elements;
a strict prefix sorts first.  Used for pre-release identifier lists. -/
def lexCompare (cmp : α → α → Ordering) : List α → List α → Ordering
  | [], [] => .eq
  | [], _ :: _ => .lt
  | _ :: _, [] => .gt
  | a :: as, b :: bs => (cmp a b).then (lexCompare cmp as bs)

/-- Pre-release comparison at the top level: an empty pre-release (a release)
sorts above every non-empty one; non-empty lists compare lexicographically.
Encoded as a lexicographic pair so that the Batteries comparator laws
compose: first compare emptiness (`false < true`, and `[]` is the empty =
`true` side, hence greater), then the identifier lists. -/
def cmpPreTop : List PreId → List PreId → Ordering :=
  compareLex (compareOn List.isEmpty) (lexCompare comparePreId)

/-- Pre-release comparison pulled back to whole versions. -/
def cmpVersionPre (a b : Version) : Ordering :=
  cmpPreTop a.pre b.pre

/-- Comparison of versions per semver precedence: major, minor, patch,
then pre-release.  This is the order implemented by the `semver` crate's
`Ord` instance that `Product::latest_version` relies on via `>`. -/
def compareVersion : Version → Version → Ordering :=
  compareLex (compareOn Version.major)
    (compareLex (compareOn Version.minor)
      (compareLex (compareOn Version.patch) cmpVersionPre))

/-- Boolean `a > b` on versions, as used by `latest_version` (`*v > latest_version`). -/
def versionGT (a b : Version) : Bool :=
  compareVersion a b == .gt

/-- Propositional `a ≤ b` on versions (the form used in the theorems). -/
def versionLE (a b : Version) : Prop :=
  compareVersion a b ≠ .gt

/-- The sentinel `Version::new(0, 0, 0)` that `latest_version` starts from. -/
def v000 : Version := ⟨0, 0, 0, []⟩

instance : OrientedCmp comparePreId where
  symm x y := by
    cases x <;> cases y <;> simp only [comparePreId, Ordering.swap]
    · exact @OrientedCmp.symm _ (compare : Nat → Nat → Ordering) _ ..
    · exact @OrientedCmp.symm _ (compare : String → String → Ordering) _ ..

instance : TransCmp comparePreId where
  le_trans {x y z} h1 h2 := by
    cases x <;> cases y <;> cases z <;>
      simp only [comparePreId] at h1 h2 ⊢ <;>
      first
      | exact @TransCmp.le_trans _ (compare : Nat → Nat → Ordering) _ _ _ _ h1 h2
      | exact @TransCmp.le_trans _ (compare : String → String → Ordering) _ _ _ _ h1 h2
      | simp_all

instance lexCompare.instOrientedCmp (cmp : α → α → Ordering) [OrientedCmp cmp] :
    OrientedCmp (lexCompare cmp) where
  symm x y := by
    induction x generalizing y with
    | nil => cases y <;> rfl
    | cons a as ih =>
      cases y with
      | nil => rfl
      | cons b bs =>
        show ((cmp a b).then (lexCompare cmp as bs)).swap = _
        rw [Ordering.swap_then, OrientedCmp.symm, ih]
        rfl

instance lexCompare.instTransCmp (cmp : α → α → Ordering) [TransCmp cmp] :
    TransCmp (lexCompare cmp) where
  le_trans {x y z} h1 h2 := by
    induction x generalizing y z with
    | nil => cases z <;> simp [lexCompare]
    | cons a as ih =>
      cases y with
      | nil => exact absurd rfl h1
      | cons b bs =>
        cases z with
        | nil => exact absurd rfl h2
        | cons c cs =>
          show ¬(cmp a c).then (lexCompare cmp as cs) = .gt
          have h1 : ¬(cmp a b).then (lexCompare cmp as bs) = .gt := h1
          have h2 : ¬(cmp b c).then (lexCompare cmp bs cs) = .gt := h2
          simp only [Ordering.then_eq_gt, not_or, not_and] at h1 h2 ⊢
          refine ⟨TransCmp.le_trans h1.1 h2.1, fun e1 e2 => ?_⟩
          match ab : cmp a b with
          | .gt => exact h1.1 ab
          | .eq => exact ih (h1.2 ab) (h2.2 (TransCmp.cmp_congr_left ab ▸ e1)) e2
          | .lt => exact h2.1 <| OrientedCmp.cmp_eq_gt.2 (TransCmp.cmp_congr_left e1 ▸ ab)

instance cmpPreTop.instOrientedCmp : OrientedCmp cmpPreTop :=
  inferInstanceAs (OrientedCmp (compareLex (compareOn List.isEmpty) (lexCompare comparePreId)))

instance cmpPreTop.instTransCmp : TransCmp cmpPreTop :=
  inferInstanceAs (TransCmp (compareLex (compareOn List.isEmpty) (lexCompare comparePreId)))

instance : OrientedCmp cmpVersionPre where
  symm x y := @OrientedCmp.symm _ cmpPreTop _ x.pre y.pre

instance : TransCmp cmpVersionPre where
  le_trans h1 h2 := @TransCmp.le_trans _ cmpPreTop _ _ _ _ h1 h2

instance compareVersion.instTransCmp : TransCmp compareVersion :=
  inferInstanceAs (TransCmp
    (compareLex (compareOn Version.major)
      (compareLex (compareOn Version.minor)
        (compareLex (compareOn Version.patch) cmpVersionPre))))

/-! ## Manifest data model (`src/src-tauri/src/manifest.rs`)

Field-for-field translation of the deserialized manifest structures.
`semver::VersionReq` (the type of `Removals::on_upgrade_from`) is an external
crate's version-range type; the code only ever applies its `matches`
predicate to a version, so it is embedded as that predicate,
`Version → Bool`.  The compile-time `cfg!(target_os, target_arch)` selection
is embedded as a runtime `Platform` value (one tag per configuration the
source distinguishes: windows, mac on aarch64, mac on x86_64, linux). -/

/-- The platform configurations distinguished by the source's `cfg!` tests. -/
inductive Platform where
  | windows
  | macArm
  | macIntel
  | linux
deriving DecidableEq

/-- The platform tag strings the removal rules' `on` lists are matched
against in `install_app` (lib.rs lines 287-308). -/
def platformTag : Platform → String
  | .windows => "windows"
  | .macArm => "mac"
  | .macIntel => "mac-intel"
  | .linux => "linux"

/-- The possible download and install strategies. -/
inductive DownloadStrategy where
  | File (name : String) (chmod : Bool)
  | Msi (product_code : String)
  | ZipFile
  | GzippedTarball
deriving DecidableEq

/-- The specification of the download. -/
structure DownloadSpec where
  url : String
  strategy : DownloadStrategy
  executable : Option String
  executable_absolute : Option String
deriving DecidableEq

/-- The per-platform downloads of one product version. -/
structure ProductDownloads where
  windows : Option DownloadSpec
  mac : Option DownloadSpec
  mac_intel : Option DownloadSpec
  linux : Option DownloadSpec
deriving DecidableEq

/-- An available version of a product. -/
structure ProductVersion where
  version : Version
  downloads : ProductDownloads
deriving DecidableEq

/-- A list of files/directories to remove when upgrading from particular
versions.  `on_upgrade_from` is a `semver::VersionReq` in the source,
embedded as its `matches` predicate.  The `on` field name is quoted because
Mathlib reserves `on` as an infix notation token. -/
structure Removals where
  on_upgrade_from : Version → Bool
  «on» : Option (List String)
  files : List String

/-- An available product. -/
structure Product where
  id : String
  name : String
  description : String
  icon : Option String
  install_directory : String
  removals : List Removals
  versions : List ProductVersion

/-- The remote manifest object. -/
structure Manifest where
  products : List Product

/-- The platform slot of `ProductDownloads` that `latest_version_data`
returns under each `cfg!` configuration (manifest.rs lines 49-57). -/
def downloadSlot (plat : Platform) (d : ProductDownloads) : Option DownloadSpec :=
  match plat with
  | .windows => d.windows
  | .macArm => d.mac
  | .macIntel => d.mac_intel
  | .linux => d.linux

/-- The loop body of `Product::latest_version` (manifest.rs lines 37-42):
`if (allow_prerelease || v.pre.is_empty()) && *v > latest_version { latest_version = v.clone(); }`. -/
def latestStep (allow_prerelease : Bool) (latest : Version) (v : ProductVersion) : Version :=
  if (allow_prerelease || v.version.pre.isEmpty) && versionGT v.version latest then
    v.version
  else latest

/-- Translation of `Product::latest_version` (manifest.rs lines 35-44): fold over the
version list starting from `Version::new(0,0,0)`, replacing the accumulator
by any version that passes the pre-release filter and compares strictly
greater. -/
def Product.latest_version (p : Product) (allow_prerelease : Bool) : Version :=
  p.versions.foldl (latestStep allow_prerelease) v000

/-- Translation of `Product::latest_version_data` (manifest.rs lines 46-61): return the
running platform's download slot of the first listed version equal to
`latest_version` (even when that slot is empty); `none` when no listed
version equals it. -/
def Product.latest_version_data (p : Product) (plat : Platform)
    (allow_prerelease : Bool) : Option DownloadSpec :=
  match p.versions.find? (fun v => v.version = p.latest_version allow_prerelease) with
  | some v => downloadSlot plat v.downloads
  | none => none

/-! ## Install state store (`src/src-tauri/src/install.rs`)

`Install` holds a `BTreeMap<String, InstalledProduct>`, embedded as an
association list with unique keys (iteration order is irrelevant to every
claim).  The persisted `version` field is a semver string in the JSON file;
it is embedded as the parsed `Version` (`install_app` immediately parses it
with `Version::parse(..).unwrap()`).  Paths are embedded as component lists
relative to the per-machine base install directory (`local_install_dir`).

`InstalledProduct` carries an `icon` field here because `lib.rs` reads and
writes one through `set_icon`/`icon` even though the `install.rs` snapshot
does not declare it; it is optional and irrelevant to every claim. -/

/-- The persisted record of one product. -/
structure InstalledProduct where
  name : String := ""
  description : String := ""
  icon : Option String := none
  version : Option Version := none
  execute_working_directory : Option (List String) := none
  main_executable : Option (List String) := none
  use_prerelease : Bool := false
deriving DecidableEq

/-- The persisted root object: product id to installed-product record. -/
structure Install where
  products : List (String × InstalledProduct) := []
deriving DecidableEq

/-- The `InstalledProduct::default()` record (all fields at their defaults). -/
def InstalledProduct.default : InstalledProduct := {}

/-- Look a product id up in the store. -/
def Install.lookup (i : Install) (id : String) : Option InstalledProduct :=
  (i.products.find? (fun kv => kv.1 = id)).map (fun kv => kv.2)

/-- The record `get_mut_product_or_default` hands out for `id`: the stored
one, or a fresh default. -/
def Install.storedRecord (i : Install) (id : String) : InstalledProduct :=
  (i.lookup id).getD .default

/-- The insertion half of `Install::get_mut_product_or_default`
(install.rs lines 22-28): insert a default record if the id is absent. -/
def Install.getOrDefault (i : Install) (id : String) : Install :=
  if (i.lookup id).isSome then i else ⟨i.products ++ [(id, .default)]⟩

/-- Apply a mutation to the record stored for `id` (the effect of calling
setters on the reference `get_mut_product_or_default` returned). -/
def Install.setRecord (i : Install) (id : String)
    (f : InstalledProduct → InstalledProduct) : Install :=
  ⟨i.products.map (fun kv => if kv.1 = id then (kv.1, f kv.2) else kv)⟩

/-- The file operations a call to `Install::save` can be observed to make.
`createTruncate p` is `std::fs::File::create(p)` (create or truncate in
place); `renameInto src dest` is a rename, present in the type so that the
write-to-temp-then-rename discipline is expressible. -/
inductive SaveOp where
  | createTruncate (path : String)
  | writeSerialized
  | renameInto (src : String) (dest : String)
deriving DecidableEq

/-- The backing file `local_install_file()` (a platform-appropriate
configuration path; its exact location is irrelevant to the claims). -/
def installFilePath : String := "installer.json"

/-- Translation of `Install::save` (install.rs lines 13-20) as its file-operation trace:
`serde_json::to_writer(BufWriter::new(File::create(local_install_file())?), self)`,
i.e. create-or-truncate the backing file in place, then write the
serialized structure into it. -/
def Install.save (_ : Install) : List SaveOp :=
  [.createTruncate installFilePath, .writeSerialized]

/-! ## Archive normalizer (`src/src-tauri/src/gzip.rs`)

A tar entry is embedded as its path (component list, separators elided) and
whether it is a directory entry (`path_str.ends_with(MAIN_SEPARATOR_STR)` in
the source).  For well-formed tar paths the source's string operations
correspond to component-list operations: `starts_with(topmost)` for a
directory path `topmost` is component-prefix, and `Path::strip_prefix`
drops those components (pass 1 guarantees every entry reaching the strip in
pass 2 has the confirmed wrapper as a prefix). -/

/-- One archive entry. -/
structure TarEntry where
  path : List String
  isDir : Bool
deriving DecidableEq

/-- Pass 1 of `extract_tar_gz` (gzip.rs lines 11-43): scan the entries
maintaining a candidate topmost directory.  A directory entry becomes the
candidate if none is set; a later entry that is not under the candidate —
or a file entry seen while no candidate is set — abandons detection
(`topmost_dir = None; break`). -/
def findTopmost : List TarEntry → Option (List String) → Option (List String)
  | [], acc => acc
  | e :: rest, acc =>
    if e.isDir then
      match acc with
      | none => findTopmost rest (some e.path)
      | some t => if t.isPrefixOf e.path then findTopmost rest acc else none
    else
      match acc with
      | some t => if t.isPrefixOf e.path then findTopmost rest acc else none
      | none => none

/-- Translation of `extract_tar_gz` (gzip.rs lines 7-78) as the list of output entries,
with paths relative to `output_dir`.  Pass 2: if pass 1 confirmed a topmost
directory, strip it from every entry that has it as a prefix (entries that
do not are silently skipped — unreachable after a confirmed pass 1);
otherwise extract every entry verbatim.  The confirmed wrapper entry itself
maps to the empty relative path, i.e. `output_dir`. -/
def extract_tar_gz (entries : List TarEntry) : List TarEntry :=
  match findTopmost entries none with
  | some t =>
    entries.filterMap (fun e =>
      if t.isPrefixOf e.path then some { e with path := e.path.drop t.length }
      else none)
  | none => entries

/-! ## Orchestrator (`src/src-tauri/src/lib.rs`, `install_app` / `remove_app`)

Each Tauri command is embedded as a function of an environment `Env` (the
running platform, which paths exist on disk, and the outcomes of the
fallible external steps: network fetch, temporary-file creation, archive
extraction, …), the shared state it locks (the cached `Option<Manifest>` and
the `Install` store), and the requested product id.  It returns the
command's result, the shared `Install` store afterwards, and the ordered
trace of filesystem effects under the install root that it performed.

`install_app` clones the shared store (`state.install_data.lock().unwrap().clone()`),
works on the clone, and writes it back only after a fully successful
install, so every error path leaves the shared store untouched.
`remove_app` mutates the locked store directly.  Both commands call
`.unwrap()` on the shared `Option<Manifest>`; the embedded result
`panicked` is that unwrap panicking when no manifest is cached. -/

/-- Result of a command: `Ok(())`, `Err(msg)`, or a Rust panic. -/
inductive TResult where
  | ok
  | err (msg : String)
  | panicked
deriving DecidableEq

/-- A filesystem effect under the base install directory.  `removePath` is
the removal pass's `remove_dir_all`/`remove_file` on one listed path;
`removeDirAll` is `remove_app`'s recursive delete of the whole install
directory; `download` stands for the fetch of the artifact into a
temporary file; `saveStore` is a call to `Install::save`. -/
inductive FsOp where
  | removePath (path : List String)
  | createDirAll (path : List String)
  | download (url : String)
  | copyFile (dest : List String)
  | chmodExec (dest : List String)
  | extractZip (dest : List String)
  | extractTarGz (dest : List String)
  | msiInstall (product_code : String)
  | removeDirAll (path : List String)
  | saveStore
deriving DecidableEq

/-- The environment of one command invocation: the platform the binary was
compiled for, which paths currently exist (`fs::symlink_metadata(..).is_ok()`),
and the outcome of each fallible external step (`none` = the step succeeds,
`some e` = it fails with the io/transport error rendered as `e`). -/
structure Env where
  platform : Platform
  pathExists : List String → Bool
  getErr : Option String := none
  tempErr : Option String := none
  writeErr : Option String := none
  copyErr : Option String := none
  chmodErr : Option String := none
  extractErr : Option String := none

/-- The removal rules' platform gate (lib.rs lines 287-309): when an `on`
list is present the rule is skipped unless it contains the running
platform's tag; an absent list gates nothing. -/
def removalPlatformOk (plat : Platform) : Option (List String) → Bool
  | none => true
  | some target_oses => target_oses.contains (platformTag plat)

/-- The removal pass's per-file deletions (lib.rs lines 311-323): each
listed file is deleted only if `symlink_metadata` succeeds on it (missing
paths are silently skipped), and the `remove_dir_all`/`remove_file` errors
are discarded (`let _ = ..`). -/
def removalFileOps (env : Env) (dir : List String) (files : List String) :
    List FsOp :=
  files.filterMap (fun f =>
    if env.pathExists (dir ++ [f]) then some (.removePath (dir ++ [f])) else none)

/-- The whole removal pass of `install_app` (lib.rs lines 280-325): runs
only when a current version is recorded; applies every rule whose
`on_upgrade_from` range matches the currently-installed version and whose
platform gate passes. -/
def removalOps (env : Env) (prod : Product) (dir : List String) :
    Option Version → List FsOp
  | none => []
  | some v =>
    (prod.removals.filter (fun r => r.on_upgrade_from v)).flatMap (fun r =>
      if removalPlatformOk env.platform r.«on» then removalFileOps env dir r.files
      else [])

/-- The strategy dispatch of `install_app` (lib.rs lines 363-405): the
effects performed and, if the step failed, the error message returned.
The source match has arms for `File` (copy, then on unix a conditional
chmod), `ZipFile` (`zip_extract::extract` into the install directory) and
`GzippedTarball` (`gzip::extract_tar_gz`); the `Msi` arm is absent from the
snapshot and is modelled from the spec: §4.4 records that this variant
dispatches to an external installer mechanism. -/
def strategyStep (env : Env) (dir : List String) (d : DownloadSpec) :
    List FsOp × Option String :=
  match d.strategy with
  | .File name chmod =>
    match env.copyErr with
    | some e => ([], some ("Failed to create target file: " ++ e))
    | none =>
      if chmod && env.platform != .windows then
        match env.chmodErr with
        | some e => ([.copyFile (dir ++ [name])], some ("Failed to set permissions: " ++ e))
        | none => ([.copyFile (dir ++ [name]), .chmodExec (dir ++ [name])], none)
      else ([.copyFile (dir ++ [name])], none)
  | .Msi product_code => ([.msiInstall product_code], none)
  | .ZipFile =>
    match env.extractErr with
    | some e => ([], some ("Failed to extract data: " ++ e))
    | none => ([.extractZip dir], none)
  | .GzippedTarball =>
    match env.extractErr with
    | some e => ([], some ("Failed to extract data: " ++ e))
    | none => ([.extractTarGz dir], none)

/-- The body of `install_app` once the product was found in the manifest
(lib.rs lines 266-427), operating on the clone of the shared store.
Order of operations, exactly as in the source: get-or-create the record in
the clone; read the current version and pre-release preference; resolve the
target version; run the removal pass; `create_dir_all` the install
directory; resolve the artifact (fail if the platform slot is empty);
download; dispatch the strategy; on success update the record, save, and
publish the clone as the new shared store. -/
def installBody (env : Env) (prod : Product) (store : Install) (id : String) :
    TResult × Install × List FsOp :=
  let dir : List String := [prod.install_directory]
  let store1 := store.getOrDefault id
  let prodInstall := store1.storedRecord id
  let current_version := prodInstall.version
  let version := prod.latest_version prodInstall.use_prerelease
  let ops1 := removalOps env prod dir current_version ++ [.createDirAll dir]
  match prod.latest_version_data env.platform prodInstall.use_prerelease with
  | none => (.err "Download not available for this operating system", store, ops1)
  | some download =>
    match env.getErr with
    | some e => (.err ("Failed to get data: " ++ e), store, ops1)
    | none =>
    match env.tempErr with
    | some e => (.err ("Failed to create temporary file: " ++ e), store, ops1)
    | none =>
    match env.writeErr with
    | some e => (.err ("Failed to write data: " ++ e), store, ops1)
    | none =>
    let ops2 := ops1 ++ [.download download.url]
    match strategyStep env dir download with
    | (stratOps, some e) => (.err e, store, ops2 ++ stratOps)
    | (stratOps, none) =>
      let store2 := store1.setRecord id (fun p =>
        let p := { p with
          name := prod.name
          description := prod.description
          icon := prod.icon
          version := some version }
        match download.executable with
        | some exec =>
          { p with
            main_executable := some (dir ++ [exec])
            execute_working_directory := some dir }
        | none => p)
      (.ok, store2, ops2 ++ stratOps ++ [.saveStore])

/-- The `install_app` command (lib.rs lines 252-430): clone the shared
store, `.unwrap()` the cached manifest (panicking when none is cached),
then run the body for the first product whose id matches; if none matches,
fail with "No matching product found". -/
def install_app (env : Env) (manifest : Option Manifest) (store : Install)
    (id : String) : TResult × Install × List FsOp :=
  match manifest with
  | none => (.panicked, store, [])
  | some mf =>
    match mf.products.find? (fun prod => prod.id = id) with
    | none => (.err "No matching product found", store, [])
    | some prod => installBody env prod store id

/-- The `remove_app` command (lib.rs lines 432-469): `.unwrap()` the cached
manifest (panicking when none is cached); for the first product whose id
matches, `remove_dir_all` its install directory with the error discarded
(the directory may simply not exist), clear the version, executable and
working-directory fields on the get-or-created record of the directly
locked store, and save; fail with "Product not found!" if no id matches. -/
def remove_app (env : Env) (manifest : Option Manifest) (store : Install)
    (id : String) : TResult × Install × List FsOp :=
  match manifest with
  | none => (.panicked, store, [])
  | some mf =>
    match mf.products.find? (fun prod => prod.id = id) with
    | none => (.err "Product not found!", store, [])
    | some prod =>
      let dir : List String := [prod.install_directory]
      let store2 := (store.getOrDefault id).setRecord id (fun p =>
        { p with
          version := none
          main_executable := none
          execute_working_directory := none })
      (.ok, store2, [.removeDirAll dir, .saveStore])

/-! ## Helper lemmas: the version order and `latest_version` -/

/-- Fact: `versionGT a b = true` iff the comparator says `gt`. -/
theorem versionGT_eq_true {a b : Version} :
    versionGT a b = true ↔ compareVersion a b = .gt := by
  unfold versionGT
  cases hc : compareVersion a b <;> decide

/-- Strictly-greater implies the reverse non-strict order. -/
theorem versionLE_of_gt {a b : Version} (h : compareVersion b a = .gt) :
    versionLE a b := by
  intro hab
  have hlt : compareVersion a b = .lt := OrientedCmp.cmp_eq_gt.1 h
  rw [hlt] at hab
  exact absurd hab (by decide)

/-- Reflexivity of `versionLE`. -/
theorem versionLE_refl (a : Version) : versionLE a a := by
  intro h
  have h2 : compareVersion a a = .eq := OrientedCmp.cmp_refl
  rw [h2] at h
  exact absurd h (by decide)

/-- Transitivity of `versionLE` (via the Batteries comparator laws). -/
theorem versionLE_trans {a b c : Version} (h1 : versionLE a b) (h2 : versionLE b c) :
    versionLE a c :=
  TransCmp.le_trans h1 h2

/-- The fold of `latest_version` never falls below its accumulator. -/
theorem foldl_latestStep_acc_le (allow : Bool) (l : List ProductVersion) (acc : Version) :
    versionLE acc (l.foldl (latestStep allow) acc) := by
  induction l generalizing acc with
  | nil => exact versionLE_refl acc
  | cons a l ih =>
    show versionLE acc (l.foldl (latestStep allow) (latestStep allow acc a))
    by_cases h : ((allow || a.version.pre.isEmpty) && versionGT a.version acc) = true
    · have hgt : compareVersion a.version acc = .gt :=
        versionGT_eq_true.1 (Bool.and_elim_right h)
      have h1 : versionLE acc a.version := versionLE_of_gt hgt
      have h2 := ih a.version
      simpa [latestStep, h] using versionLE_trans h1 h2
    · simpa [latestStep, h] using ih acc

/-- The fold of `latest_version` returns its accumulator or one of the
listed versions that passed the pre-release filter. -/
theorem foldl_latestStep_mem (allow : Bool) (l : List ProductVersion) (acc : Version) :
    l.foldl (latestStep allow) acc = acc ∨
      ∃ pv ∈ l, (allow || pv.version.pre.isEmpty) = true ∧
        l.foldl (latestStep allow) acc = pv.version := by
  induction l generalizing acc with
  | nil => exact .inl rfl
  | cons a l ih =>
    by_cases h : ((allow || a.version.pre.isEmpty) && versionGT a.version acc) = true
    · rcases ih a.version with h1 | ⟨pv, hm, hp, he⟩
      · refine .inr ⟨a, List.mem_cons_self .., Bool.and_elim_left h, ?_⟩
        simpa [latestStep, h] using h1
      · refine .inr ⟨pv, List.mem_cons_of_mem _ hm, hp, ?_⟩
        simpa [latestStep, h] using he
    · rcases ih acc with h1 | ⟨pv, hm, hp, he⟩
      · refine .inl ?_
        simpa [latestStep, h] using h1
      · refine .inr ⟨pv, List.mem_cons_of_mem _ hm, hp, ?_⟩
        simpa [latestStep, h] using he

/-- The fold of `latest_version` is an upper bound of every listed version
that passed the pre-release filter. -/
theorem foldl_latestStep_ub (allow : Bool) (l : List ProductVersion) (acc : Version) :
    ∀ pv ∈ l, (allow || pv.version.pre.isEmpty) = true →
      versionLE pv.version (l.foldl (latestStep allow) acc) := by
  induction l generalizing acc with
  | nil => intro pv h; cases h
  | cons a l ih =>
    intro pv hm hp
    rcases List.mem_cons.1 hm with rfl | hm
    · by_cases h : ((allow || pv.version.pre.isEmpty) && versionGT pv.version acc) = true
      · have hstep : latestStep allow acc pv = pv.version := by
          unfold latestStep
          rw [if_pos h]
        rw [List.foldl_cons, hstep]
        exact foldl_latestStep_acc_le allow l pv.version
      · have hng : versionGT pv.version acc = false := by
          rcases Bool.eq_false_or_eq_true (versionGT pv.version acc) with h1 | h1
          · exact absurd (by simp [hp, h1]) h
          · exact h1
        have h1 : versionLE pv.version acc := by
          intro hc
          rw [versionGT_eq_true.2 hc] at hng
          exact absurd hng (by decide)
        have hstep : latestStep allow acc pv = acc := by
          unfold latestStep
          rw [if_neg h]
        rw [List.foldl_cons, hstep]
        exact versionLE_trans h1 (foldl_latestStep_acc_le allow l acc)
    · exact ih (latestStep allow acc a) pv hm hp

/-- With pre-releases disallowed, the fold preserves an empty pre-release
component in the accumulator. -/
theorem foldl_latestStep_pre_empty (l : List ProductVersion) (acc : Version)
    (h : acc.pre = []) : (l.foldl (latestStep false) acc).pre = [] := by
  induction l generalizing acc with
  | nil => exact h
  | cons a l ih =>
    rw [List.foldl_cons]
    by_cases hc : ((false || a.version.pre.isEmpty) && versionGT a.version acc) = true
    · have hpre : a.version.pre = [] := by
        have h1 := Bool.and_elim_left hc
        simpa [List.isEmpty_iff] using h1
      have hstep : latestStep false acc a = a.version := by
        unfold latestStep
        rw [if_pos hc]
      rw [hstep]
      exact ih a.version hpre
    · have hstep : latestStep false acc a = acc := by
        unfold latestStep
        rw [if_neg hc]
      rw [hstep]
      exact ih acc h

/-! ## Helper lemmas: the install store -/

/-- After `getOrDefault`, looking the id up yields exactly the record
`get_mut_product_or_default` hands out. -/
theorem Install.lookup_getOrDefault (s : Install) (id : String) :
    (s.getOrDefault id).lookup id = some (s.storedRecord id) := by
  unfold Install.getOrDefault Install.storedRecord
  cases h : s.lookup id with
  | some r => simp [h]
  | none =>
    simp only [h, Option.isSome_none, Bool.false_eq_true, if_false, Option.getD_none]
    unfold Install.lookup at h ⊢
    have hfind : s.products.find? (fun kv => decide (kv.1 = id)) = none := by
      cases hf : s.products.find? (fun kv => decide (kv.1 = id)) with
      | none => rfl
      | some kv => rw [hf] at h; cases h
    simp [List.find?_append, hfind, List.find?]

/-- Fact: `getOrDefault` does not change the record `storedRecord` reports. -/
theorem Install.storedRecord_getOrDefault (s : Install) (id : String) :
    (s.getOrDefault id).storedRecord id = s.storedRecord id := by
  unfold Install.storedRecord
  rw [Install.lookup_getOrDefault]
  rfl

/-- Looking up the mutated id after `setRecord` sees the mutation. -/
theorem Install.lookup_setRecord (s : Install) (id : String)
    (f : InstalledProduct → InstalledProduct) :
    (s.setRecord id f).lookup id = (s.lookup id).map f := by
  unfold Install.setRecord Install.lookup
  induction s.products with
  | nil => rfl
  | cons kv rest ih =>
    by_cases h : kv.1 = id
    · simp [List.find?, h]
    · simp only [List.map_cons, if_neg h, List.find?]
      rw [decide_eq_false h]
      simpa using ih

/-- The record stored for `id` after get-or-create followed by a mutation. -/
theorem Install.lookup_getOrDefault_setRecord (s : Install) (id : String)
    (f : InstalledProduct → InstalledProduct) :
    ((s.getOrDefault id).setRecord id f).lookup id = some (f (s.storedRecord id)) := by
  rw [Install.lookup_setRecord, Install.lookup_getOrDefault]
  rfl

/-! ## Helper lemmas: the archive normalizer -/

/-- Once pass 1 has a candidate, the candidate can only survive unchanged:
whatever it returns as confirmed wrapper is that candidate. -/
theorem findTopmost_acc_fixed (l : List TarEntry) (t0 t : List String)
    (h : findTopmost l (some t0) = some t) : t = t0 := by
  induction l with
  | nil => cases h; rfl
  | cons e l ih =>
    cases hd : e.isDir <;> cases hp : t0.isPrefixOf e.path <;>
      simp [findTopmost, hd, hp] at h <;> exact ih h

/-- A confirmed candidate is a prefix of every scanned entry. -/
theorem findTopmost_acc_prefixes (l : List TarEntry) (t0 t : List String)
    (h : findTopmost l (some t0) = some t) :
    ∀ e ∈ l, t0.isPrefixOf e.path = true := by
  induction l with
  | nil => intro e he; cases he
  | cons e l ih =>
    intro e2 he2
    cases hd : e.isDir <;> cases hp : t0.isPrefixOf e.path <;>
      simp [findTopmost, hd, hp] at h
    · rcases List.mem_cons.1 he2 with rfl | hm
      · exact hp
      · exact ih h e2 hm
    · rcases List.mem_cons.1 he2 with rfl | hm
      · exact hp
      · exact ih h e2 hm

/-- Conversely, a candidate that prefixes every remaining entry survives
pass 1. -/
theorem findTopmost_of_all_prefixed (l : List TarEntry) (t0 : List String)
    (h : ∀ e ∈ l, t0.isPrefixOf e.path = true) :
    findTopmost l (some t0) = some t0 := by
  induction l with
  | nil => rfl
  | cons e l ih =>
    have he := h e (List.mem_cons_self ..)
    have ht := ih (fun e2 hm => h e2 (List.mem_cons_of_mem _ hm))
    cases hd : e.isDir <;> simp [findTopmost, hd, he] <;> exact ht

/-- A wrapper confirmed from an empty candidate prefixes every entry. -/
theorem findTopmost_none_prefixes (l : List TarEntry) (t : List String)
    (h : findTopmost l none = some t) :
    ∀ e ∈ l, t.isPrefixOf e.path = true := by
  cases l with
  | nil => cases h
  | cons e l =>
    cases hd : e.isDir <;> simp [findTopmost, hd] at h
    intro e2 he2
    have hfix := findTopmost_acc_fixed l e.path t h
    subst hfix
    rcases List.mem_cons.1 he2 with rfl | hm
    · simp [List.isPrefixOf_iff_prefix]
    · exact findTopmost_acc_prefixes l e.path e.path h e2 hm

/-- When the wrapper prefixes every entry, pass 2's filter keeps every
entry and just strips the prefix. -/
theorem filterMap_strip (t : List String) (l : List TarEntry)
    (h : ∀ e ∈ l, t.isPrefixOf e.path = true) :
    l.filterMap (fun e =>
        if t.isPrefixOf e.path then some { e with path := e.path.drop t.length }
        else none) =
      l.map (fun e => { e with path := e.path.drop t.length }) := by
  induction l with
  | nil => rfl
  | cons e l ih =>
    have he := h e (List.mem_cons_self ..)
    rw [List.filterMap_cons, List.map_cons, he]
    simp only [if_true]
    rw [ih (fun e2 hm => h e2 (List.mem_cons_of_mem _ hm))]

/-! ## Spec-side definitions

These two groups of definitions follow the *spec's words*, not the source;
they exist to be compared against the source-derived definitions above. -/

/-- Modelled from the spec (§4.1): the candidate set of `latest_version` —
"all listed versions when allow_prerelease is true, otherwise only the
versions whose prerelease component is empty". -/
def specCandidates (p : Product) (allow_prerelease : Bool) : List Version :=
  (p.versions.map (fun pv => pv.version)).filter
    (fun v => allow_prerelease || v.pre.isEmpty)

/-- Modelled from the spec (§4.3, claim C3): "the write goes to a temporary
file that then replaces the backing file": no create-or-truncate ever
targets the backing file, and some rename into the backing file occurs. -/
def atomicViaTemp (ops : List SaveOp) (backing : String) : Prop :=
  (∀ p, SaveOp.createTruncate p ∈ ops → p ≠ backing) ∧
    ∃ tmp, SaveOp.renameInto tmp backing ∈ ops

/-- The opposite discipline, which claim C3 says the code avoids:
the very first operation create-or-truncates the backing file in place,
and nothing is ever renamed onto it. -/
def truncatesInPlace (ops : List SaveOp) (backing : String) : Prop :=
  ops.head? = some (SaveOp.createTruncate backing) ∧
    ∀ src, SaveOp.renameInto src backing ∉ ops

/-! ## Concrete fixtures used by counterexamples and witnesses -/

/-- A linux download artifact: a gzipped tarball with an executable. -/
def sampleSpec : DownloadSpec :=
  { url := "https://example.invalid/app.tar.gz"
    strategy := .GzippedTarball
    executable := some "bin/app"
    executable_absolute := none }

/-- The spec's §8 scenario product: versions `1.0.0` (with a linux
artifact) and `1.1.0-beta` (no artifacts), no removal rules. -/
def sampleProduct : Product :=
  { id := "p", name := "P", description := "desc", icon := none
    install_directory := "d", removals := []
    versions :=
      [⟨⟨1, 0, 0, []⟩, ⟨none, none, none, some sampleSpec⟩⟩,
       ⟨⟨1, 1, 0, [.str "beta"]⟩, ⟨none, none, none, none⟩⟩] }

/-- A manifest holding only `sampleProduct`. -/
def sampleManifest : Manifest := ⟨[sampleProduct]⟩

/-- A store in which `sampleProduct` is recorded as installed, with the
pre-release preference switched on. -/
def sampleStore : Install :=
  ⟨[("p",
     { name := "P", description := "desc", icon := none
       version := some ⟨1, 0, 0, []⟩
       execute_working_directory := some ["d"]
       main_executable := some ["d", "bin", "app"]
       use_prerelease := true })]⟩

/-- A product whose only listed version is the pre-release `0.0.0-alpha`:
every candidate compares below the `0.0.0` sentinel. -/
def preOnlyProduct : Product :=
  { id := "pre", name := "Pre", description := "", icon := none
    install_directory := "pre", removals := []
    versions := [⟨⟨0, 0, 0, [.str "alpha"]⟩, ⟨none, none, none, none⟩⟩] }

/-- A product with a matching removal rule (range `< 2.0.0`, all
platforms) whose resolved version `1.0.0` has no artifact on any
platform. -/
def noArtifactProduct : Product :=
  { id := "q", name := "Q", description := "", icon := none
    install_directory := "d"
    removals :=
      [{ on_upgrade_from := fun v => versionGT ⟨2, 0, 0, []⟩ v
         «on» := none
         files := ["old.txt"] }]
    versions := [⟨⟨1, 0, 0, []⟩, ⟨none, none, none, none⟩⟩] }

/-- A store in which `noArtifactProduct` is installed at version `1.0.0`. -/
def installedStore : Install :=
  ⟨[("q", { name := "Q", version := some ⟨1, 0, 0, []⟩ })]⟩

/-- A linux environment in which every path exists and every external step
succeeds. -/
def allExistEnv : Env := { platform := .linux, pathExists := fun _ => true }

/-- A linux environment in which no path exists (e.g. the install
directory was already removed by hand). -/
def noPathsEnv : Env := { platform := .linux, pathExists := fun _ => false }

/-- An archive whose entries all lie under the single top-level directory
`root`, but which contains no directory entries at all. -/
def noDirEntries : List TarEntry :=
  [⟨["root", "bin", "app"], false⟩, ⟨["root", "README"], false⟩]

/-- A gzipped-tarball artifact without an executable. -/
def tarSpec : DownloadSpec :=
  { url := "https://example.invalid/t.tar.gz"
    strategy := .GzippedTarball
    executable := none
    executable_absolute := none }

/-- A product delivering `tarSpec` for linux at version `1.0.0`. -/
def tarProduct : Product :=
  { id := "t", name := "T", description := "", icon := none
    install_directory := "dt", removals := []
    versions := [⟨⟨1, 0, 0, []⟩, ⟨none, none, none, some tarSpec⟩⟩] }

/-- A linux environment whose extraction step fails with a corrupt
archive. -/
def extractFailEnv : Env :=
  { platform := .linux, pathExists := fun _ => false
    extractErr := some "corrupt archive" }

/-! ## Claim theorems -/

/-- Claim C10: `install_app` and `remove_app` dereference the process-wide
cached manifest with an unchecked `unwrap`; when no manifest has been
fetched and cached, both operations panic instead of returning any error,
leaving the store untouched and performing no filesystem effect. -/
theorem commands_panic_without_manifest (env : Env) (store : Install) (id : String) :
    install_app env none store id = (.panicked, store, []) ∧
    remove_app env none store id = (.panicked, store, []) :=
  ⟨rfl, rfl⟩

/-- Claim C3 (counterexample): `Install::save` is not write-to-temp-then-
rename: its very first file operation create-or-truncates the backing file
itself, so the claimed discipline fails already on the empty store. -/
theorem save_not_atomic_counterexample :
    ¬ atomicViaTemp (Install.save ⟨[]⟩) installFilePath :=
  fun h => h.1 installFilePath (List.mem_cons_self ..) rfl

/-- Claim C3 (amended): `save(Install)` serializes the entire structure and
overwrites the backing file by create-or-truncating it **in place**
(`File::create(local_install_file())`), then writing into it; no temporary
file is written and nothing is renamed onto the backing file, so an
interruption mid-write can leave the previously valid file truncated. -/
theorem save_truncates_in_place (i : Install) :
    i.save = [.createTruncate installFilePath, .writeSerialized] ∧
    truncatesInPlace i.save installFilePath ∧
    ¬ atomicViaTemp i.save installFilePath := by
  refine ⟨rfl, ⟨rfl, ?_⟩, fun h => h.1 installFilePath (List.mem_cons_self ..) rfl⟩
  intro src hmem
  simp [Install.save] at hmem

/-- Claim C3 (witness): The amended statement at the empty store. -/
theorem save_truncates_in_place_witness :
    truncatesInPlace (Install.save ⟨[]⟩) installFilePath :=
  (save_truncates_in_place ⟨[]⟩).2.1

/-- Claim C2 (counterexample): With `allow_prerelease = true` and version
list `[0.0.0-alpha]`, the candidate set is the non-empty `[0.0.0-alpha]`
whose maximum is `0.0.0-alpha`, yet `latest_version` returns the sentinel
`0.0.0`, which is not even a member of the candidate set: the result is
not the maximum of the candidate set. -/
theorem latest_version_sentinel_counterexample :
    specCandidates preOnlyProduct true = [⟨0, 0, 0, [.str "alpha"]⟩] ∧
    preOnlyProduct.latest_version true = v000 ∧
    preOnlyProduct.latest_version true ∉ specCandidates preOnlyProduct true := by
  refine ⟨by decide, by decide, by decide⟩

/-- Claim C2 (amended): `latest_version(product, allow_prerelease)` returns
the maximum, under semantic-version ordering, of the candidate set
*extended with the sentinel `0.0.0`*: the result is the sentinel or a
candidate, it is at least the sentinel, and no candidate exceeds it.  (In
particular, when the candidate set is empty — or every candidate precedes
`0.0.0`, e.g. contains only pre-releases of `0.0.0` — it returns the
sentinel, regardless of `allow_prerelease`.) -/
theorem latest_version_max_with_sentinel (p : Product) (pre : Bool) :
    (p.latest_version pre = v000 ∨ p.latest_version pre ∈ specCandidates p pre) ∧
    versionLE v000 (p.latest_version pre) ∧
    (∀ v ∈ specCandidates p pre, versionLE v (p.latest_version pre)) := by
  refine ⟨?_, foldl_latestStep_acc_le pre p.versions v000, ?_⟩
  · rcases foldl_latestStep_mem pre p.versions v000 with h | ⟨pv, hm, hp, he⟩
    · exact .inl h
    · refine .inr ?_
      show p.versions.foldl (latestStep pre) v000 ∈ specCandidates p pre
      rw [he]
      simp only [specCandidates, List.mem_filter, List.mem_map]
      exact ⟨⟨pv, hm, rfl⟩, hp⟩
  · intro v hv
    simp only [specCandidates, List.mem_filter, List.mem_map] at hv
    rcases hv with ⟨⟨pv, hm, rfl⟩, hp⟩
    exact foldl_latestStep_ub pre p.versions v000 pv hm hp

/-- Claim C2 (witness): The amended maximality at the §8 scenario product:
`1.0.0` is a candidate with pre-releases disallowed, and does not exceed
the resolved version. -/
theorem latest_version_max_with_sentinel_witness :
    versionLE ⟨1, 0, 0, []⟩ (sampleProduct.latest_version false) :=
  (latest_version_max_with_sentinel sampleProduct false).2.2 ⟨1, 0, 0, []⟩ (by decide)

/-- Claim C8: For every product whose version list contains both prerelease
and release versions, `latest_version` with `allow_prerelease = false`
never returns a version with a non-empty prerelease component. -/
theorem latest_version_false_no_prerelease (p : Product)
    (h1 : ∃ pv ∈ p.versions, pv.version.pre ≠ [])
    (h2 : ∃ pv ∈ p.versions, pv.version.pre = []) :
    (p.latest_version false).pre = [] :=
  foldl_latestStep_pre_empty p.versions v000 rfl

/-- Claim C8 (witness): The §8 scenario product contains `1.1.0-beta` and
`1.0.0`; resolution without pre-releases yields a release version. -/
theorem latest_version_false_no_prerelease_witness :
    (sampleProduct.latest_version false).pre = [] :=
  latest_version_false_no_prerelease sampleProduct (by decide) (by decide)

/-- Claim C9: Under the spec's §4.1 tie policy (distinct listed versions),
`latest_version_data` returns the running platform's slot of the
`ProductVersion` whose version equals `latest_version`, and returns `none`
exactly when every listed version equal to the resolved version (there is
at most one) has an empty slot for that platform — which covers both "that
platform slot is absent" and "no listed version equals the resolved
version". -/
theorem latest_version_data_platform_slot (p : Product) (plat : Platform) (pre : Bool)
    (hnodup : (p.versions.map (fun pv => pv.version)).Nodup) :
    (∀ pv ∈ p.versions, pv.version = p.latest_version pre →
        p.latest_version_data plat pre = downloadSlot plat pv.downloads) ∧
    (p.latest_version_data plat pre = none ↔
        ∀ pv ∈ p.versions, pv.version = p.latest_version pre →
          downloadSlot plat pv.downloads = none) := by
  have hinj := List.inj_on_of_nodup_map hnodup
  unfold Product.latest_version_data
  cases hf : p.versions.find? (fun pv => decide (pv.version = p.latest_version pre)) with
  | none =>
    have hnone := List.find?_eq_none.1 hf
    refine ⟨?_, ?_, ?_⟩
    · intro pv hm he
      exact absurd (decide_eq_true he) (by simpa using hnone pv hm)
    · intro _ pv hm he
      exact absurd (decide_eq_true he) (by simpa using hnone pv hm)
    · intro _
      rfl
  | some pv0 =>
    have hm0 : pv0 ∈ p.versions := List.mem_of_find?_eq_some hf
    have he0 : pv0.version = p.latest_version pre := by
      have h1 := List.find?_some hf
      simpa using h1
    have huniq : ∀ pv ∈ p.versions, pv.version = p.latest_version pre → pv = pv0 := by
      intro pv hm he
      exact hinj hm hm0 (by rw [he, he0])
    refine ⟨?_, ?_, ?_⟩
    · intro pv hm he
      rw [huniq pv hm he]
    · intro hslot pv hm he
      rw [huniq pv hm he]
      exact hslot
    · intro hall
      exact hall pv0 hm0 he0

/-- Claim C9 (witness): On linux with pre-releases disallowed, the §8
scenario product resolves to `1.0.0` and its linux slot is returned. -/
theorem latest_version_data_platform_slot_witness :
    sampleProduct.latest_version_data .linux false = some sampleSpec := by
  have h := (latest_version_data_platform_slot sampleProduct .linux false (by decide)).1
  exact h ⟨⟨1, 0, 0, []⟩, ⟨none, none, none, some sampleSpec⟩⟩ (by decide) (by decide)

/-- A non-empty confirmed wrapper pins down the head component of every
entry it prefixes. -/
theorem head?_of_cons_isPrefixOf {th : String} {tt p : List String}
    (h : ((th :: tt).isPrefixOf p) = true) : p.head? = some th := by
  cases p with
  | nil => simp at h
  | cons a as =>
    simp only [List.isPrefixOf, Bool.and_eq_true, beq_iff_eq] at h
    rw [h.1]
    rfl

/-- Claim C4 (counterexample): An archive whose entries all lie under the
single top-level directory `root` but which carries no directory entries
(a common tar layout) is *not* stripped: pass 1 abandons detection at the
first file entry, so extraction is verbatim, contradicting the claim that
every single-rooted archive is unwrapped. -/
theorem extract_tar_gz_counterexample :
    (["root"].isPrefixOf ["root", "bin", "app"]) = true ∧
    (["root"].isPrefixOf ["root", "README"]) = true ∧
    extract_tar_gz noDirEntries = noDirEntries ∧
    extract_tar_gz noDirEntries ≠ [⟨["bin", "app"], false⟩, ⟨["README"], false⟩] := by
  refine ⟨by decide, by decide, by decide, by decide⟩

/-- Claim C4 (amended): Wrapper stripping applies when the archive's *first
entry is a directory* and every entry lies under it: extraction then
strips that top-level directory from every entry (the wrapper entry itself
maps to the target root).  Archives with two or more distinct top-level
roots always extract verbatim — and so do single-rooted archives whose
first entry is not a directory entry (see the counterexample). -/
theorem extract_tar_gz_amended (r : String) (rest : List TarEntry)
    (entries : List TarEntry) :
    ((∀ e ∈ rest, ([r].isPrefixOf e.path) = true) →
      extract_tar_gz (⟨[r], true⟩ :: rest) =
        ⟨[], true⟩ :: rest.map (fun e => { e with path := e.path.drop 1 })) ∧
    ((∃ e1 ∈ entries, ∃ e2 ∈ entries, e1.path.head? ≠ e2.path.head?) →
      extract_tar_gz entries = entries) := by
  constructor
  · intro h
    have hall : ∀ e ∈ (⟨[r], true⟩ :: rest : List TarEntry),
        ([r].isPrefixOf e.path) = true := by
      intro e he
      rcases List.mem_cons.1 he with rfl | hm
      · simp [List.isPrefixOf_iff_prefix]
      · exact h e hm
    have htop : findTopmost (⟨[r], true⟩ :: rest) none = some [r] := by
      show findTopmost rest (some [r]) = some [r]
      exact findTopmost_of_all_prefixed rest [r] h
    simp only [extract_tar_gz, htop]
    rw [filterMap_strip [r] _ hall, List.map_cons]
    rfl
  · rintro ⟨e1, hm1, e2, hm2, hne⟩
    cases ht : findTopmost entries none with
    | none => simp only [extract_tar_gz, ht]
    | some t =>
      cases t with
      | nil =>
        simp only [extract_tar_gz, ht]
        rw [filterMap_strip [] entries (by intro e he; simp)]
        have hid : (fun e : TarEntry => { e with path := e.path.drop ([] : List String).length }) =
            fun e => e := by
          funext e
          rw [List.length_nil, List.drop_zero]
        rw [hid, List.map_id']
      | cons th tt =>
        exfalso
        have hp1 := findTopmost_none_prefixes entries (th :: tt) ht e1 hm1
        have hp2 := findTopmost_none_prefixes entries (th :: tt) ht e2 hm2
        apply hne
        rw [head?_of_cons_isPrefixOf hp1, head?_of_cons_isPrefixOf hp2]

/-- Claim C4 (witness): The amendment at two concrete archives: one wrapped
in a leading `root/` directory entry, and one with two distinct roots. -/
theorem extract_tar_gz_amended_witness :
    extract_tar_gz [⟨["root"], true⟩, ⟨["root", "bin", "app"], false⟩] =
      [⟨[], true⟩, ⟨["bin", "app"], false⟩] ∧
    extract_tar_gz [⟨["a", "x"], false⟩, ⟨["b", "y"], false⟩] =
      [⟨["a", "x"], false⟩, ⟨["b", "y"], false⟩] := by
  constructor
  · have h := (extract_tar_gz_amended "root" [⟨["root", "bin", "app"], false⟩] []).1
      (by decide)
    simpa using h
  · exact (extract_tar_gz_amended "x" [] [⟨["a", "x"], false⟩, ⟨["b", "y"], false⟩]).2
      ⟨⟨["a", "x"], false⟩, by decide, ⟨["b", "y"], false⟩, by decide, by decide⟩

/-- Claim C7: For every product known to the manifest, `remove_app` succeeds
(for *every* environment, in particular when the install directory does
not exist on disk — the `remove_dir_all` error is discarded), clears the
stored `version`, `main_executable` and `execute_working_directory` fields
to absent while every other field of the record (name, description, icon,
`use_prerelease`) is kept, and saves the store. -/
theorem remove_app_clears_fields (env : Env) (mf : Manifest) (store : Install)
    (id : String) (prod : Product)
    (hfind : mf.products.find? (fun prod => prod.id = id) = some prod) :
    (remove_app env (some mf) store id).1 = .ok ∧
    (remove_app env (some mf) store id).2.1.lookup id =
      some { store.storedRecord id with
              version := none
              main_executable := none
              execute_working_directory := none } ∧
    FsOp.saveStore ∈ (remove_app env (some mf) store id).2.2 := by
  simp only [remove_app, hfind]
  refine ⟨trivial, ?_, by simp⟩
  rw [Install.lookup_getOrDefault_setRecord]

/-- Claim C7 (witness): Removing the §8 scenario product after install: the
three fields are cleared, `name`, `description` and the switched-on
`use_prerelease` survive, and the operation succeeds although no path
exists on disk. -/
theorem remove_app_clears_fields_witness :
    (remove_app noPathsEnv (some sampleManifest) sampleStore "p").1 = .ok ∧
    (remove_app noPathsEnv (some sampleManifest) sampleStore "p").2.1.lookup "p" =
      some { name := "P", description := "desc", icon := none, version := none
             execute_working_directory := none, main_executable := none
             use_prerelease := true } := by
  have h := remove_app_clears_fields noPathsEnv sampleManifest sampleStore "p"
    sampleProduct rfl
  exact ⟨h.1, by rw [h.2.1]; rfl⟩

/-- Claim C1 (counterexample): A product installed at `1.0.0` with a
matching removal rule and no artifact for the running platform: the
install fails with "Download not available for this operating system",
but only *after* the removal pass deleted `d/old.txt` and the install
directory was created — refuting "before the removal pass runs and before
the install directory is created, so no files under the install directory
are deleted or created".  The persisted store is indeed unchanged. -/
theorem install_app_no_artifact_counterexample :
    (install_app allExistEnv (some ⟨[noArtifactProduct]⟩) installedStore "q").1 =
      .err "Download not available for this operating system" ∧
    (install_app allExistEnv (some ⟨[noArtifactProduct]⟩) installedStore "q").2.2 =
      [.removePath ["d", "old.txt"], .createDirAll ["d"]] ∧
    (install_app allExistEnv (some ⟨[noArtifactProduct]⟩) installedStore "q").2.1 =
      installedStore := by
  refine ⟨by decide, by decide, by decide⟩

/-- Claim C1 (amended): When the resolved target version has no
`DownloadSpec` for the running platform, `install_app` fails with
"Download not available for this operating system" — but only *after* the
removal pass has run and after the install directory has been created: the
effect trace is exactly the removal pass's deletions followed by
`create_dir_all`.  The persisted `Install` store is unchanged (the failing
command drops its private clone without saving). -/
theorem install_app_no_artifact (env : Env) (mf : Manifest) (store : Install)
    (id : String) (prod : Product)
    (hfind : mf.products.find? (fun prod => prod.id = id) = some prod)
    (hnone : prod.latest_version_data env.platform
        (store.storedRecord id).use_prerelease = none) :
    install_app env (some mf) store id =
      (.err "Download not available for this operating system", store,
        removalOps env prod [prod.install_directory] (store.storedRecord id).version
          ++ [.createDirAll [prod.install_directory]]) := by
  simp only [install_app, installBody, hfind, Install.storedRecord_getOrDefault, hnone]

/-- Claim C1 (witness): The amended statement at the counterexample's
fixtures. -/
theorem install_app_no_artifact_witness :
    install_app allExistEnv (some ⟨[noArtifactProduct]⟩) installedStore "q" =
      (.err "Download not available for this operating system", installedStore,
        removalOps allExistEnv noArtifactProduct ["d"] (some ⟨1, 0, 0, []⟩)
          ++ [.createDirAll ["d"]]) := by
  have h := install_app_no_artifact allExistEnv ⟨[noArtifactProduct]⟩ installedStore "q"
    noArtifactProduct rfl rfl
  exact h

/-- Every effect the removal pass produces is a `removePath`. -/
theorem eq_removePath_of_mem_removalOps (env : Env) (prod : Product)
    (dir : List String) (cur : Option Version) :
    ∀ op ∈ removalOps env prod dir cur, ∃ p, op = FsOp.removePath p := by
  intro op h
  cases cur with
  | none => cases h
  | some v =>
    simp only [removalOps, List.mem_flatMap, List.mem_filter] at h
    rcases h with ⟨r, -, hop⟩
    by_cases hplat : removalPlatformOk env.platform r.«on» = true
    · rw [if_pos hplat] at hop
      simp only [removalFileOps, List.mem_filterMap] at hop
      rcases hop with ⟨f, -, hif⟩
      by_cases hex : env.pathExists (dir ++ [f]) = true
      · rw [if_pos hex] at hif
        exact ⟨dir ++ [f], (Option.some.inj hif).symm⟩
      · rw [if_neg hex] at hif
        cases hif
    · rw [if_neg hplat] at hop
      cases hop

/-- Claim C5: When `install_app` fails in the strategy-dispatch step (zip or
gzip extraction, e.g. a corrupt archive or a filesystem write error),
the command returns that extraction error, the shared `Install` store is
exactly the store from before the call — so the record's `version` field
keeps its prior value — and no `Install::save` happens, even though
effects before the failure (removals, directory creation, download)
remain. -/
theorem install_app_extract_failure_preserves_state (env : Env) (mf : Manifest)
    (store : Install) (id : String) (prod : Product) (dl : DownloadSpec) (e : String)
    (hfind : mf.products.find? (fun prod => prod.id = id) = some prod)
    (hdl : prod.latest_version_data env.platform
        (store.storedRecord id).use_prerelease = some dl)
    (hstrat : dl.strategy = .ZipFile ∨ dl.strategy = .GzippedTarball)
    (hget : env.getErr = none) (htemp : env.tempErr = none)
    (hwrite : env.writeErr = none) (hext : env.extractErr = some e) :
    (install_app env (some mf) store id).1 = .err ("Failed to extract data: " ++ e) ∧
    (install_app env (some mf) store id).2.1 = store ∧
    FsOp.saveStore ∉ (install_app env (some mf) store id).2.2 ∧
    ((install_app env (some mf) store id).2.1.storedRecord id).version =
      (store.storedRecord id).version := by
  have hstep : strategyStep env [prod.install_directory] dl =
      ([], some ("Failed to extract data: " ++ e)) := by
    rcases hstrat with h | h <;> simp [strategyStep, h, hext]
  simp only [install_app, installBody, hfind, Install.storedRecord_getOrDefault,
    hdl, hget, htemp, hwrite, hstep]
  refine ⟨trivial, trivial, ?_, trivial⟩
  intro hmem
  simp only [List.append_assoc, List.mem_append] at hmem
  rcases hmem with h | h
  · rcases eq_removePath_of_mem_removalOps env prod [prod.install_directory]
      (store.storedRecord id).version _ h with ⟨p, hp⟩
    cases hp
  · simp at h

/-- Claim C5 (witness): A corrupt gzipped tarball on a fresh store: the
extraction error is returned and the store is untouched. -/
theorem install_app_extract_failure_preserves_state_witness :
    (install_app extractFailEnv (some ⟨[tarProduct]⟩) ⟨[]⟩ "t").1 =
      .err "Failed to extract data: corrupt archive" ∧
    (install_app extractFailEnv (some ⟨[tarProduct]⟩) ⟨[]⟩ "t").2.1 = ⟨[]⟩ := by
  have h := install_app_extract_failure_preserves_state extractFailEnv ⟨[tarProduct]⟩
    ⟨[]⟩ "t" tarProduct tarSpec "corrupt archive" rfl rfl (.inr rfl) rfl rfl rfl rfl
  exact ⟨h.1, h.2.1⟩

/-- The strategy dispatch never consults the filesystem oracle. -/
theorem strategyStep_pathExists_irrel (env : Env) (pe : List String → Bool)
    (dir : List String) (d : DownloadSpec) :
    strategyStep { env with pathExists := pe } dir d = strategyStep env dir d := by
  rcases d with ⟨u, strat, ex, exa⟩
  cases strat <;> rfl

/-- The result and the resulting store of `installBody` do not depend on
which paths exist: `pathExists` only decides which removal deletions are
attempted, i.e. the effect trace. -/
theorem installBody_pathExists_irrel (env : Env) (pe : List String → Bool)
    (prod : Product) (store : Install) (id : String) :
    (installBody { env with pathExists := pe } prod store id).1 =
      (installBody env prod store id).1 ∧
    (installBody { env with pathExists := pe } prod store id).2.1 =
      (installBody env prod store id).2.1 := by
  unfold installBody
  simp only [strategyStep_pathExists_irrel,
    show ({ env with pathExists := pe } : Env).platform = env.platform from rfl,
    show ({ env with pathExists := pe } : Env).getErr = env.getErr from rfl,
    show ({ env with pathExists := pe } : Env).tempErr = env.tempErr from rfl,
    show ({ env with pathExists := pe } : Env).writeErr = env.writeErr from rfl]
  cases prod.latest_version_data env.platform
      ((store.getOrDefault id).storedRecord id).use_prerelease with
  | none => exact ⟨rfl, rfl⟩
  | some download =>
    dsimp only
    cases env.getErr with
    | some e => exact ⟨rfl, rfl⟩
    | none =>
      dsimp only
      cases env.tempErr with
      | some e => exact ⟨rfl, rfl⟩
      | none =>
        dsimp only
        cases env.writeErr with
        | some e => exact ⟨rfl, rfl⟩
        | none =>
          dsimp only
          cases hs : strategyStep env [prod.install_directory] download with
          | mk stratOps serr =>
            cases serr with
            | some e => exact ⟨rfl, rfl⟩
            | none => exact ⟨rfl, rfl⟩

/-- Claim C6: During install of a currently-installed product, a removal
rule's listed file is deleted iff its `on_upgrade_from` range matches the
currently-installed version and its `on` platform set, when present,
contains the running platform's tag (an absent set gates nothing) — for
files that exist; no removal pass runs when the product is not currently
installed (`removalOps .. none = []`); and missing listed files are not
errors: the command's result and resulting store are independent of which
paths exist. -/
theorem removal_rule_applies_iff (env : Env) (prod : Product) (dir : List String)
    (v : Version) (f : String) (mf : Manifest) (store : Install) (id : String)
    (pe : List String → Bool) :
    removalOps env prod dir none = [] ∧
    (FsOp.removePath (dir ++ [f]) ∈ removalOps env prod dir (some v) ↔
      env.pathExists (dir ++ [f]) = true ∧
      ∃ r ∈ prod.removals, r.on_upgrade_from v = true ∧
        removalPlatformOk env.platform r.«on» = true ∧ f ∈ r.files) ∧
    ((install_app { env with pathExists := pe } (some mf) store id).1 =
        (install_app env (some mf) store id).1 ∧
      (install_app { env with pathExists := pe } (some mf) store id).2.1 =
        (install_app env (some mf) store id).2.1) := by
  refine ⟨rfl, ⟨?_, ?_⟩, ?_⟩
  · intro hmem
    simp only [removalOps, List.mem_flatMap, List.mem_filter] at hmem
    rcases hmem with ⟨r, ⟨hrmem, hrmatch⟩, hop⟩
    by_cases hplat : removalPlatformOk env.platform r.«on» = true
    · rw [if_pos hplat] at hop
      simp only [removalFileOps, List.mem_filterMap] at hop
      rcases hop with ⟨f2, hf2, hif⟩
      by_cases hex : env.pathExists (dir ++ [f2]) = true
      · rw [if_pos hex] at hif
        have heq : dir ++ [f2] = dir ++ [f] :=
          FsOp.removePath.inj (Option.some.inj hif)
        have h2 : ([f2] : List String) = [f] := List.append_cancel_left heq
        have hf2f : f2 = f := by
          injection h2
        subst hf2f
        exact ⟨hex, r, hrmem, hrmatch, hplat, hf2⟩
      · rw [if_neg hex] at hif
        cases hif
    · rw [if_neg hplat] at hop
      cases hop
  · rintro ⟨hex, r, hrmem, hmatch, hplat, hf⟩
    simp only [removalOps, List.mem_flatMap, List.mem_filter]
    refine ⟨r, ⟨hrmem, hmatch⟩, ?_⟩
    rw [if_pos hplat]
    simp only [removalFileOps, List.mem_filterMap]
    exact ⟨f, hf, by rw [if_pos hex]⟩
  · unfold install_app
    dsimp only
    cases hf : mf.products.find? (fun prod => prod.id = id) with
    | none => exact ⟨rfl, rfl⟩
    | some prod2 => exact installBody_pathExists_irrel env pe prod2 store id

/-- Claim C6 (witness): The spec's §8 removal scenario: the `< 2.0.0` rule
deletes `d/old.txt` when upgrading from `1.5.0` and is skipped when
upgrading from `2.1.0`. -/
theorem removal_rule_applies_iff_witness :
    FsOp.removePath ["d", "old.txt"] ∈
      removalOps allExistEnv noArtifactProduct ["d"] (some ⟨1, 5, 0, []⟩) ∧
    FsOp.removePath ["d", "old.txt"] ∉
      removalOps allExistEnv noArtifactProduct ["d"] (some ⟨2, 1, 0, []⟩) := by
  constructor
  · exact (removal_rule_applies_iff allExistEnv noArtifactProduct ["d"] ⟨1, 5, 0, []⟩
      "old.txt" ⟨[]⟩ ⟨[]⟩ "q" (fun _ => true)).2.1.mpr (by decide)
  · intro hmem
    rcases (removal_rule_applies_iff allExistEnv noArtifactProduct ["d"] ⟨2, 1, 0, []⟩
      "old.txt" ⟨[]⟩ ⟨[]⟩ "q" (fun _ => true)).2.1.mp hmem with ⟨-, r, hr, hmatch, -⟩
    rcases List.mem_singleton.1 hr with rfl
    exact absurd hmatch (by decide)

/-- Claim C10 (witness): both commands at a concrete environment, store
and id with no cached manifest. -/
theorem commands_panic_without_manifest_witness :
    install_app allExistEnv none ⟨[]⟩ "x" = (.panicked, ⟨[]⟩, []) ∧
    remove_app allExistEnv none ⟨[]⟩ "x" = (.panicked, ⟨[]⟩, []) :=
  commands_panic_without_manifest allExistEnv ⟨[]⟩ "x"
